import Mathlib

/-!
Verification of the ingestion-and-query engine of a ledger RPC service.

The development shallowly embeds the `db`-package event handler
(`InsertEvents`, `trimEvents`, `GetEvents`, the event-table migration) and,
for the transaction-lookup claims, a model of `GetTransaction` together with
the transaction store.  Machine `uint32` arithmetic is embedded as `Nat`
with explicit reduction modulo `2 ^ 32` where the source can overflow.
Database side effects are embedded as explicit row lists: an insert returns
the list of rows it would write, a delete returns the surviving table, a
select is a filter/sort/join over the table value.
-/

/-- A position in the ledger stream: (ledger sequence, 1-based transaction
index, 0-based event index), embedding the Go `Cursor` struct. -/
structure Cursor where
  ledger : Nat
  tx : Nat
  event : Nat
deriving Repr, DecidableEq

/-- Strict lexicographic order on cursors (ledger, then tx, then event). -/
def cursorLt (a b : Cursor) : Prop :=
  a.ledger < b.ledger ∨
    (a.ledger = b.ledger ∧ (a.tx < b.tx ∨ (a.tx = b.tx ∧ a.event < b.event)))

instance (a b : Cursor) : Decidable (cursorLt a b) := by
  unfold cursorLt; exact inferInstance

/-- Reflexive lexicographic order on cursors. -/
def cursorLe (a b : Cursor) : Prop :=
  cursorLt a b ∨ a = b

instance (a b : Cursor) : Decidable (cursorLe a b) := by
  unfold cursorLe; exact inferInstance

/-- A half-open cursor interval.  The Go struct fields are `Start` and
`End`; `End` is a Lean keyword, so the upper bound is named `stop`. -/
structure CursorRange where
  start : Cursor
  stop : Cursor
deriving Repr, DecidableEq

/-- A diagnostic event as it appears in a transaction's post-apply
metadata: the optional 32-byte contract id and the event type are the
fields `InsertEvents` reads; `body` abstracts the remaining XDR payload. -/
structure DiagnosticEvent where
  contractId : Option Nat
  eventType : Nat
  body : Nat
deriving Repr, DecidableEq

/-- A transaction of a ledger-close-meta, as exposed by the ingestion
transaction reader: success flag of its result, its diagnostic events
(`GetDiagnosticEvents`, embedded as already-decoded data), the hash stored
in its result pair, and opaque tokens for the envelope, result and
post-apply metadata XDR values. -/
structure IngestTx where
  successful : Bool
  feeBump : Bool
  envelope : Nat
  txResult : Nat
  resultMeta : Nat
  resultHash : Nat
  diagEvents : List DiagnosticEvent
deriving Repr, DecidableEq

/-- A ledger-close-meta: header data (sequence, close time) and the
transactions in apply order. -/
structure LedgerCloseMeta where
  ledgerSeq : Nat
  closeTime : Int
  txs : List IngestTx
deriving Repr, DecidableEq

/-- `CountTransactions` on an LCM. -/
def countTransactions (lcm : LedgerCloseMeta) : Nat :=
  lcm.txs.length

/-- A row of the `events` table: `(ledger_sequence, application_order,
contract_id, event_type)`. -/
structure EventRow where
  ledgerSequence : Nat
  applicationOrder : Nat
  contractId : Option Nat
  eventType : Nat
deriving Repr, DecidableEq

/-- The `eventHandler` state that the embedded functions depend on: the
prepared-statement cache (possibly nil) and the network passphrase.  The
logger, session and metrics fields are external I/O handles outside the
model. -/
structure EventHandler where
  stmtCache : Option Unit
  passphrase : String
deriving Repr, DecidableEq

/-- `NewEventReader` builds a handler with no prepared-statement cache. -/
def NewEventReader (passphrase : String) : EventHandler :=
  { stmtCache := none, passphrase := passphrase }

/-- Pairs every list element with its index, starting from `n`.  Used to
embed the 1-based `tx.Index` of the ingestion reader and the 0-based
`eventIndex` of a range loop. -/
def enumFrom (n : Nat) : List α → List (Nat × α)
  | [] => []
  | a :: as => (n, a) :: enumFrom (n + 1) as

/-- The transaction loop of `InsertEvents`: skip unsuccessful transactions,
skip transactions with no diagnostic events, and emit one row per remaining
diagnostic event, batches in apply order. -/
def insertEventsLoop (seq : Nat) : List (Nat × IngestTx) → List EventRow
  | [] => []
  | p :: rest =>
    if !p.2.successful then insertEventsLoop seq rest
    else if p.2.diagEvents.isEmpty then insertEventsLoop seq rest
    else
      (p.2.diagEvents.map (fun e =>
        { ledgerSequence := seq, applicationOrder := p.1,
          contractId := e.contractId, eventType := e.eventType })) ++
      insertEventsLoop seq rest

/-- `InsertEvents`: errors when the statement cache is nil, returns at once
when the LCM has no transactions, and otherwise returns the rows written to
the `events` table. -/
def InsertEvents (h : EventHandler) (lcm : LedgerCloseMeta) :
    Except String (List EventRow) :=
  if h.stmtCache.isNone then
    .error "EventWriter incorrectly initialized without stmtCache"
  else if countTransactions lcm = 0 then
    .ok []
  else
    .ok (insertEventsLoop lcm.ledgerSeq (enumFrom 1 lcm.txs))

/-- `uint32` reduction: the source computes `latestLedgerSeq + 1` and the
cutoff in 32-bit unsigned arithmetic. -/
def u32 (n : Nat) : Nat :=
  n % 4294967296

/-- `trimEvents`: deletes every `events` row whose ledger sequence is below
`latestLedgerSeq + 1 - retentionWindow`, doing nothing when
`latestLedgerSeq + 1 <= retentionWindow` (uint32 arithmetic).  The table is
the explicit row list; the result is the surviving table. -/
def trimEvents (latestLedgerSeq retentionWindow : Nat)
    (table : List EventRow) : List EventRow :=
  if u32 (latestLedgerSeq + 1) ≤ u32 retentionWindow then table
  else
    table.filter (fun r =>
      !decide (r.ledgerSequence < u32 (latestLedgerSeq + 1) - u32 retentionWindow))

/-- The ledger-sequence range of a migration. -/
structure LedgerSeqRange where
  firstLedgerSeq : Nat
  lastLedgerSeq : Nat
deriving Repr, DecidableEq

/-- The event-table migration value built by the factory. -/
structure EventTableMigration where
  firstLedger : Nat
  lastLedger : Nat
deriving Repr, DecidableEq

/-- `ApplicableRange` of the event-table migration. -/
def applicableRange (e : EventTableMigration) : LedgerSeqRange :=
  { firstLedgerSeq := e.firstLedger, lastLedgerSeq := e.lastLedger }

/-- The package constant `firstLedger = uint32(2)`. -/
def firstLedger : Nat := 2

/-- `newEventTableMigration`: the factory's applier construction, keeping
only the range computation (the writer it builds is an `eventHandler` with
a live statement cache). -/
def newEventTableMigration (retentionWindow latestLedger : Nat) :
    EventTableMigration :=
  let firstLedgerToMigrate :=
    if latestLedger > retentionWindow then latestLedger - retentionWindow
    else firstLedger
  { firstLedger := firstLedgerToMigrate, lastLedger := latestLedger }

/-- The database state `GetEvents` reads: the `events` table and the
ledger-close-meta table mapping `sequence` to the stored LCM blob. -/
structure EventDB where
  events : List EventRow
  ledgers : List (Nat × LedgerCloseMeta)
deriving Repr, DecidableEq

/-- The inner join of an `events` row with the `ledgers` table on
`e.ledger_sequence = lcm.sequence`: the first entry with the matching
sequence, if any. -/
def lookupLedger (ledgers : List (Nat × LedgerCloseMeta)) (seq : Nat) :
    Option LedgerCloseMeta :=
  match ledgers.find? (fun q => q.1 == seq) with
  | some q => some q.2
  | none => none

/-- The WHERE clauses of the `GetEvents` row query: ledger sequence at
least `Start.Ledger`, application order at least `Start.Tx`, ledger
sequence below `End.Ledger`, and, when a contract filter is given,
`contract_id` a member of it (a NULL contract id matches no filter). -/
def rowMatches (cursorRange : CursorRange) (contractIDs : List Nat)
    (e : EventRow) : Bool :=
  decide (cursorRange.start.ledger ≤ e.ledgerSequence) &&
  decide (cursorRange.start.tx ≤ e.applicationOrder) &&
  decide (e.ledgerSequence < cursorRange.stop.ledger) &&
  (contractIDs.isEmpty ||
    (match e.contractId with
     | some c => contractIDs.contains c
     | none => false))

/-- Stable insertion of a row into a list sorted by ledger sequence; ties
keep the existing rows first. -/
def insertSortedRow (e : EventRow) : List EventRow → List EventRow
  | [] => [e]
  | x :: xs =>
    if e.ledgerSequence < x.ledgerSequence then e :: x :: xs
    else x :: insertSortedRow e xs

/-- Stable sort of event rows by ledger sequence, embedding the query's
`ORDER BY e.ledger_sequence ASC` (which fixes no order between rows of
equal ledger sequence; the stable order is one admissible answer). -/
def sortRowsByLedger : List EventRow → List EventRow
  | [] => []
  | x :: xs => insertSortedRow x (sortRowsByLedger xs)

/-- The `GetEvents` row query: filter the `events` table, order by ledger
sequence, and join each row with its stored LCM, yielding
`(application_order, meta)` pairs. -/
def selectRows (db : EventDB) (cursorRange : CursorRange)
    (contractIDs : List Nat) : List (Nat × LedgerCloseMeta) :=
  (sortRowsByLedger (db.events.filter (rowMatches cursorRange contractIDs))).filterMap
    (fun e => (lookupLedger db.ledgers e.ledgerSequence).map
      (fun lcm => (e.applicationOrder, lcm)))

/-- One invocation of the scan function: the diagnostic event, its cursor,
the ledger close time and the transaction hash. -/
structure Visit where
  ev : DiagnosticEvent
  cursor : Cursor
  ledgerCloseTime : Int
  txHash : Nat
deriving Repr, DecidableEq

/-- Per-row body of the `GetEvents` loop: seek to `txIndex - 1` in the
row's LCM (failing on an out-of-range index, as `Seek`/`Read` do), read
the transaction, and produce one visit per diagnostic event with cursor
`(lcm sequence, txIndex, eventIndex)`. -/
def rowVisits (txIndex : Nat) (lcm : LedgerCloseMeta) :
    Except String (List Visit) :=
  if txIndex = 0 then .error "failed to index to tx"
  else
    match lcm.txs.get? (txIndex - 1) with
    | none => .error "failed reading tx"
    | some tx =>
      .ok ((enumFrom 0 tx.diagEvents).map (fun p =>
        { ev := p.2,
          cursor := { ledger := lcm.ledgerSeq, tx := txIndex, event := p.1 },
          ledgerCloseTime := lcm.closeTime,
          txHash := tx.resultHash }))

/-- Applies the scan function to each visit in turn; the Bool result is
false when the function asked to stop (it is still applied to the visit
that answered false, matching the source's early `return nil`). -/
def visitAll (f : Visit → Bool) : List Visit → List Visit × Bool
  | [] => ([], true)
  | v :: rest =>
    if f v then
      let r := visitAll f rest
      (v :: r.1, r.2)
    else ([v], false)

/-- The row loop of `GetEvents`: per row, compute its visits (an indexing
failure aborts the scan with an error), feed them to the scan function,
and stop the whole scan once the function answers false. -/
def scanRows (f : Visit → Bool) :
    List (Nat × LedgerCloseMeta) → List Visit × Option String
  | [] => ([], none)
  | p :: rest =>
    match rowVisits p.1 p.2 with
    | .error e => ([], some e)
    | .ok vs =>
      let r := visitAll f vs
      if r.2 then
        let rr := scanRows f rest
        (r.1 ++ rr.1, rr.2)
      else (r.1, none)

/-- `GetEvents`: run the row query and scan the result, returning the
visits made to the scan function and the error, if any, that ended the
scan. -/
def GetEvents (db : EventDB) (cursorRange : CursorRange)
    (contractIDs : List Nat) (f : Visit → Bool) :
    List Visit × Option String :=
  scanRows f (selectRows db cursorRange contractIDs)

/-- The write-path invariant of the LCM table: the stored blob's header
sequence equals the row's `sequence` key. -/
def WellFormedDB (db : EventDB) : Prop :=
  ∀ q ∈ db.ledgers, q.2.ledgerSeq = q.1

instance (db : EventDB) : Decidable (WellFormedDB db) :=
  List.decidableBAll _ _

/-- Checks that a cursor list is strictly increasing. -/
def strictlyAscending : List Cursor → Bool
  | a :: b :: rest => decide (cursorLt a b) && strictlyAscending (b :: rest)
  | _ => true

/-- A JSON-RPC error: numeric code and human message, rendered as
`[code] message`. -/
structure RpcError where
  code : Int
  message : String
deriving Repr, DecidableEq

/-- Renders an `RpcError` the way the request error type prints itself. -/
def renderError (e : RpcError) : String :=
  "[" ++ toString e.code ++ "] " ++ e.message

/-- Value of one hex digit, case-insensitive; `none` on a non-hex
character. -/
def hexDigitVal (c : Char) : Option Nat :=
  if '0' ≤ c ∧ c ≤ '9' then some (c.toNat - 48)
  else if 'a' ≤ c ∧ c ≤ 'f' then some (c.toNat - 87)
  else if 'A' ≤ c ∧ c ≤ 'F' then some (c.toNat - 55)
  else none

/-- Whether a character is a hex digit. -/
def isHexChar (c : Char) : Bool :=
  (hexDigitVal c).isSome

/-- Hex decoding of a character list into bytes, reporting the first
invalid character (the byte the Go decoder names in its error); an odd
trailing character is also an error. -/
def hexDecodeChars : List Char → Except Char (List Nat)
  | [] => .ok []
  | [c] => .error c
  | c1 :: c2 :: rest =>
    match hexDigitVal c1 with
    | none => .error c1
    | some hi =>
      match hexDigitVal c2 with
      | none => .error c2
      | some lo => (hexDecodeChars rest).map (fun bs => (16 * hi + lo) :: bs)

/-- Modelled from the spec: the hex decoder's error detail for an invalid
byte (`encoding/hex: invalid byte: ...`); the Unicode rendering of the
offending character is simplified to the character itself. -/
def hexErrorDetail (c : Char) : String :=
  "encoding/hex: invalid byte: " ++ String.singleton c

/-- Lower-case hex character of a nibble. -/
def hexDigitChar (n : Nat) : Char :=
  Char.ofNat (if n < 10 then 48 + n else 87 + n)

/-- Hex encoding of a byte list, two characters per byte. -/
def hexEncodeBytes : List Nat → List Char
  | [] => []
  | b :: bs => hexDigitChar (b / 16 % 16) :: hexDigitChar (b % 16) :: hexEncodeBytes bs

/-- Hex encoding of a byte list as a string. -/
def hexEncode (bs : List Nat) : String :=
  String.mk (hexEncodeBytes bs)

/-- Modelled from the spec: `xdr.MarshalBase64`, the base64 canonical
binary encoding of an XDR value; XDR values are opaque tokens, and the
encoding is an injective executable stand-in. -/
def marshalBase64 (x : Nat) : String :=
  "b64:" ++ toString x

/-- Modelled from the spec: the base64 canonical encoding of one
diagnostic event. -/
def marshalDiagnosticEvent (e : DiagnosticEvent) : String :=
  "b64ev:" ++ toString e.eventType ++ ":" ++
    (match e.contractId with
     | some c => toString c
     | none => "null") ++ ":" ++ toString e.body

/-- Modelled from the spec: `HashTransactionInEnvelope`, a deterministic
32-byte hash of the envelope under the network passphrase, embedded as an
executable function producing the base-256 digits of an envelope-and-
passphrase-dependent number. -/
def hashOf (passphrase : String) (envelope : Nat) : List Nat :=
  (List.range 32).map (fun i => (envelope + passphrase.length) / 256 ^ i % 256)

/-- Modelled from the spec: the transaction store holding the ingested
ledger-close-metas (section 4.4; its implementation is not part of the
sources under verification, only its test is). -/
structure TransactionStore where
  passphrase : String
  lcms : List LedgerCloseMeta
deriving Repr, DecidableEq

/-- The transaction index derived from the store: one entry per ingested
transaction, keyed by its envelope hash, carrying the ledger it belongs
to, its 1-based apply-order index, and the transaction itself. -/
def txEntries (st : TransactionStore) :
    List (List Nat × LedgerCloseMeta × Nat × IngestTx) :=
  st.lcms.flatMap (fun lcm =>
    (enumFrom 1 lcm.txs).map (fun p =>
      (hashOf st.passphrase p.2.envelope, lcm, p.1, p.2)))

/-- Point lookup of a transaction by hash bytes. -/
def lookupTx (st : TransactionStore) (bytes : List Nat) :
    Option (LedgerCloseMeta × Nat × IngestTx) :=
  match (txEntries st).find? (fun q => q.1 == bytes) with
  | some q => some q.2
  | none => none

/-- The ingested LCM with the greatest ledger sequence, if any. -/
def latestEntry : List LedgerCloseMeta → Option LedgerCloseMeta
  | [] => none
  | l :: ls =>
    match latestEntry ls with
    | none => some l
    | some m => if l.ledgerSeq < m.ledgerSeq then some m else some l

/-- The ingested LCM with the least ledger sequence, if any. -/
def oldestEntry : List LedgerCloseMeta → Option LedgerCloseMeta
  | [] => none
  | l :: ls =>
    match oldestEntry ls with
    | none => some l
    | some m => if m.ledgerSeq < l.ledgerSeq then some m else some l

/-- Latest ledger bound of the store; 0 when the store is empty. -/
def latestSeq (st : TransactionStore) : Nat :=
  match latestEntry st.lcms with
  | none => 0
  | some l => l.ledgerSeq

/-- Close time of the latest ledger; 0 when the store is empty. -/
def latestCloseTime (st : TransactionStore) : Int :=
  match latestEntry st.lcms with
  | none => 0
  | some l => l.closeTime

/-- Oldest ledger bound of the store; 0 when the store is empty. -/
def oldestSeq (st : TransactionStore) : Nat :=
  match oldestEntry st.lcms with
  | none => 0
  | some l => l.ledgerSeq

/-- Close time of the oldest ledger; 0 when the store is empty. -/
def oldestCloseTime (st : TransactionStore) : Int :=
  match oldestEntry st.lcms with
  | none => 0
  | some l => l.closeTime

/-- The `getTransaction` status enum. -/
inductive TransactionStatus where
  | success
  | failed
  | notFound
deriving Repr, DecidableEq

/-- The `getTransaction` response; fields other than the status and the
store bounds keep their zero value (the wire encoding omits them) when the
transaction is not found. -/
structure GetTransactionResponse where
  status : TransactionStatus
  latestLedger : Nat := 0
  latestLedgerCloseTime : Int := 0
  oldestLedger : Nat := 0
  oldestLedgerCloseTime : Int := 0
  applicationOrder : Nat := 0
  feeBump : Bool := false
  envelopeXdr : String := ""
  resultXdr : String := ""
  resultMetaXdr : String := ""
  ledger : Nat := 0
  ledgerCloseTime : Int := 0
  diagnosticEventsXdr : List String := []
deriving Repr, DecidableEq

/-- Modelled from the spec: the lookup-and-reconstruct step of
`GetTransaction` after hash validation — answer NOT_FOUND with the store
bounds when the hash is absent from the index, and otherwise rebuild the
full transaction view from the stored LCM. -/
def getTransactionResult (st : TransactionStore) (bytes : List Nat) :
    Except RpcError GetTransactionResponse :=
  match lookupTx st bytes with
  | none =>
    .ok { status := .notFound,
          latestLedger := latestSeq st,
          latestLedgerCloseTime := latestCloseTime st,
          oldestLedger := oldestSeq st,
          oldestLedgerCloseTime := oldestCloseTime st }
  | some q =>
    .ok { status := if q.2.2.successful then .success else .failed,
          latestLedger := latestSeq st,
          latestLedgerCloseTime := latestCloseTime st,
          oldestLedger := oldestSeq st,
          oldestLedgerCloseTime := oldestCloseTime st,
          applicationOrder := q.2.1,
          feeBump := q.2.2.feeBump,
          envelopeXdr := marshalBase64 q.2.2.envelope,
          resultXdr := marshalBase64 q.2.2.txResult,
          resultMetaXdr := marshalBase64 q.2.2.resultMeta,
          ledger := q.1.ledgerSeq,
          ledgerCloseTime := q.1.closeTime,
          diagnosticEventsXdr := q.2.2.diagEvents.map marshalDiagnosticEvent }

/-- Modelled from the spec: `GetTransaction` (section 4.4; absent from the
sources under verification, which hold only its test).  Validates the hash
argument (64 hex characters, failing with BadInput -32602 otherwise), then
looks the hash up and builds the response. -/
def GetTransaction (st : TransactionStore) (hashHex : String) :
    Except RpcError GetTransactionResponse :=
  if hashHex.length ≠ 64 then
    .error { code := -32602,
             message := "unexpected hash length (" ++ toString hashHex.length ++ ")" }
  else
    match hexDecodeChars hashHex.toList with
    | .error c =>
      .error { code := -32602, message := "incorrect hash: " ++ hexErrorDetail c }
    | .ok bytes => getTransactionResult st bytes

/-- Sample diagnostic event of contract 1. -/
def sampleEventA : DiagnosticEvent :=
  { contractId := some 1, eventType := 0, body := 10 }

/-- Sample diagnostic event of contract 2. -/
def sampleEventB : DiagnosticEvent :=
  { contractId := some 2, eventType := 0, body := 20 }

/-- A successful transaction emitting the two sample events. -/
def sampleTx : IngestTx :=
  { successful := true, feeBump := false, envelope := 5, txResult := 6,
    resultMeta := 7, resultHash := 8, diagEvents := [sampleEventA, sampleEventB] }

/-- Ledger 2 containing the sample transaction. -/
def sampleLcm : LedgerCloseMeta :=
  { ledgerSeq := 2, closeTime := 150, txs := [sampleTx] }

/-- A handler with a live statement cache. -/
def sampleHandler : EventHandler :=
  { stmtCache := some (), passphrase := "p" }

/-- The `events` rows that ingesting `sampleLcm` writes. -/
def sampleRows : List EventRow :=
  match InsertEvents sampleHandler sampleLcm with
  | .ok rows => rows
  | .error _ => []

/-- Database state after ingesting `sampleLcm`. -/
def sampleDB : EventDB :=
  { events := sampleRows, ledgers := [(2, sampleLcm)] }

/-- An LCM with no transactions. -/
def emptyLcm : LedgerCloseMeta :=
  { ledgerSeq := 7, closeTime := 0, txs := [] }

/-- A transaction store with nothing ingested. -/
def emptyStore : TransactionStore :=
  { passphrase := "passphrase", lcms := [] }

/-- A 64-character lower-case hex string of `a` characters. -/
def aHash64 : String :=
  "aaaaaaaaaaaaaaaaaaaaaaaaaaaaaaaaaaaaaaaaaaaaaaaaaaaaaaaaaaaaaaaa"

/-- A 64-character string that is not valid hex: `foo` and 61 spaces. -/
def badHex64 : String :=
  "foo                                                             "

/-- A successful transaction with no diagnostic events, for the
round-trip witness. -/
def wTx : IngestTx :=
  { successful := true, feeBump := false, envelope := 3, txResult := 4,
    resultMeta := 5, resultHash := 6, diagEvents := [] }

/-- Ledger 101 containing `wTx`. -/
def wLcm : LedgerCloseMeta :=
  { ledgerSeq := 101, closeTime := 2625, txs := [wTx] }

/-- A store holding exactly ledger 101. -/
def wStore : TransactionStore :=
  { passphrase := "p", lcms := [wLcm] }

/-- The transaction loop of `InsertEvents` equals filtering the indexed
transactions to the successful ones with events and emitting one row per
diagnostic event. -/
theorem insertEventsLoop_eq (seq : Nat) (l : List (Nat × IngestTx)) :
    insertEventsLoop seq l =
      (l.filter (fun p => p.2.successful && !p.2.diagEvents.isEmpty)).flatMap
        (fun p => p.2.diagEvents.map (fun e =>
          { ledgerSequence := seq, applicationOrder := p.1,
            contractId := e.contractId, eventType := e.eventType })) := by
  induction l with
  | nil => rfl
  | cons p rest ih =>
    by_cases hs : p.2.successful
    · by_cases he : p.2.diagEvents.isEmpty
      · simp [insertEventsLoop, hs, he, List.filter_cons, ih]
      · simp [insertEventsLoop, hs, he, List.filter_cons, ih]
    · simp [insertEventsLoop, hs, List.filter_cons, ih]

/-- C4: `InsertEvents` iterates the LCM's transactions in apply order,
skips unsuccessful transactions and transactions without diagnostic
events, and emits exactly one row per remaining diagnostic event carrying
the ledger sequence, the 1-based transaction index, the contract id or
null, and the event type; an LCM with no transactions yields no rows. -/
theorem insertEvents_rows (h : EventHandler) (lcm : LedgerCloseMeta)
    (hc : h.stmtCache.isSome = true) :
    InsertEvents h lcm =
      .ok (((enumFrom 1 lcm.txs).filter
          (fun p => p.2.successful && !p.2.diagEvents.isEmpty)).flatMap
        (fun p => p.2.diagEvents.map (fun e =>
          { ledgerSequence := lcm.ledgerSeq, applicationOrder := p.1,
            contractId := e.contractId, eventType := e.eventType }))) ∧
    (lcm.txs = [] → InsertEvents h lcm = .ok []) := by
  have hnone : h.stmtCache.isNone = false := by
    cases hcs : h.stmtCache with
    | none => rw [hcs] at hc; simp at hc
    | some u => simp [hcs]
  constructor
  · by_cases hz : countTransactions lcm = 0
    · have htxs : lcm.txs = [] := List.length_eq_zero.mp hz
      simp [InsertEvents, hnone, hz, htxs, enumFrom]
    · simp [InsertEvents, hnone, hz, insertEventsLoop_eq]
  · intro htxs
    have hz : countTransactions lcm = 0 := by simp [countTransactions, htxs]
    simp [InsertEvents, hnone, hz]

/-- Witness for C4 at the sample ledger. -/
theorem insertEvents_rows_witness :
    InsertEvents sampleHandler sampleLcm =
      .ok (((enumFrom 1 sampleLcm.txs).filter
          (fun p => p.2.successful && !p.2.diagEvents.isEmpty)).flatMap
        (fun p => p.2.diagEvents.map (fun e =>
          { ledgerSequence := sampleLcm.ledgerSeq, applicationOrder := p.1,
            contractId := e.contractId, eventType := e.eventType }))) ∧
    (sampleLcm.txs = [] → InsertEvents sampleHandler sampleLcm = .ok []) :=
  insertEvents_rows sampleHandler sampleLcm (by decide)

/-- C10: `InsertEvents` on a handler without a statement cache fails (and,
the result being an error, writes no rows); a handler built by
`NewEventReader` always fails this way; and a properly initialized handler
given an LCM with no transactions succeeds touching nothing. -/
theorem insertEvents_guards (h : EventHandler) (lcm : LedgerCloseMeta)
    (p : String) :
    (h.stmtCache = none →
      InsertEvents h lcm =
        .error "EventWriter incorrectly initialized without stmtCache") ∧
    InsertEvents (NewEventReader p) lcm =
      .error "EventWriter incorrectly initialized without stmtCache" ∧
    (h.stmtCache.isSome = true → countTransactions lcm = 0 →
      InsertEvents h lcm = .ok []) := by
  refine ⟨?_, ?_, ?_⟩
  · intro hn
    simp [InsertEvents, hn]
  · simp [InsertEvents, NewEventReader]
  · intro hc hz
    have hnone : h.stmtCache.isNone = false := by
      cases hcs : h.stmtCache with
      | none => rw [hcs] at hc; simp at hc
      | some u => simp [hcs]
    simp [InsertEvents, hnone, hz]

/-- Witness for C10: a `NewEventReader` handler fails on the sample
ledger, and a live handler succeeds with no rows on an empty LCM. -/
theorem insertEvents_guards_witness :
    InsertEvents (NewEventReader "p") sampleLcm =
      .error "EventWriter incorrectly initialized without stmtCache" ∧
    InsertEvents sampleHandler emptyLcm = .ok [] :=
  ⟨(insertEvents_guards (NewEventReader "p") sampleLcm "p").2.1,
   (insertEvents_guards sampleHandler emptyLcm "p").2.2 (by decide) (by decide)⟩

/-- C9: `trimEvents` deletes nothing when `latestLedgerSeq + 1` (uint32)
is at most the retention window, and otherwise keeps the table's rows
unchanged and in order, a row surviving exactly when its ledger sequence
is not below `latestLedgerSeq + 1 - retentionWindow`. -/
theorem trimEvents_spec (latest ret : Nat) (table : List EventRow) :
    (u32 (latest + 1) ≤ u32 ret → trimEvents latest ret table = table) ∧
    (u32 ret < u32 (latest + 1) →
      List.Sublist (trimEvents latest ret table) table ∧
      ∀ r : EventRow, r ∈ trimEvents latest ret table ↔
        r ∈ table ∧ ¬ r.ledgerSequence < u32 (latest + 1) - u32 ret) := by
  constructor
  · intro hle
    simp [trimEvents, hle]
  · intro hgt
    have hn : ¬ u32 (latest + 1) ≤ u32 ret := Nat.not_le.mpr hgt
    refine ⟨?_, ?_⟩
    · simp only [trimEvents, if_neg hn]
      exact List.filter_sublist table
    · intro r
      simp [trimEvents, hn, List.mem_filter]

/-- Witness for C9: a below-window trim keeps everything, and a row below
the cutoff of a real trim is characterized as deleted. -/
theorem trimEvents_spec_witness :
    trimEvents 3 10 sampleRows = sampleRows ∧
    ({ ledgerSequence := 2, applicationOrder := 1, contractId := some 1,
       eventType := 0 } ∈ trimEvents 100 10 sampleRows ↔
      { ledgerSequence := 2, applicationOrder := 1, contractId := some 1,
        eventType := 0 } ∈ sampleRows ∧
      ¬ ({ ledgerSequence := 2, applicationOrder := 1, contractId := some 1,
           eventType := 0 } : EventRow).ledgerSequence <
          u32 (100 + 1) - u32 10) :=
  ⟨(trimEvents_spec 3 10 sampleRows).1 (by decide),
   ((trimEvents_spec 100 10 sampleRows).2 (by decide)).2 _⟩

/-- C8 counterexample: with `latestLedger = 5` and `retentionWindow = 4`
the migration's applicable range starts at ledger 1, not at
`max 2 (latestLedger - retentionWindow) = 2` as the claim states. -/
theorem newEventTableMigration_cex :
    (applicableRange (newEventTableMigration 4 5)).firstLedgerSeq = 1 ∧
    max 2 (5 - 4) = 2 ∧
    (applicableRange (newEventTableMigration 4 5)).firstLedgerSeq ≠
      max 2 (5 - 4) := by
  decide

/-- C8 amended: the applicable range ends at `latestLedger` and starts at
`latestLedger - retentionWindow` when `latestLedger > retentionWindow` and
at 2 otherwise; this equals `max 2 (latestLedger - retentionWindow)` in
every case except `latestLedger = retentionWindow + 1`, where it is 1. -/
theorem newEventTableMigration_range (latestLedger retentionWindow : Nat) :
    (applicableRange (newEventTableMigration retentionWindow latestLedger)).firstLedgerSeq =
      (if retentionWindow < latestLedger then latestLedger - retentionWindow
       else 2) ∧
    (applicableRange (newEventTableMigration retentionWindow latestLedger)).lastLedgerSeq =
      latestLedger ∧
    (latestLedger ≠ retentionWindow + 1 →
      (applicableRange (newEventTableMigration retentionWindow latestLedger)).firstLedgerSeq =
        max 2 (latestLedger - retentionWindow)) := by
  refine ⟨?_, rfl, ?_⟩
  · simp only [applicableRange, newEventTableMigration, firstLedger, gt_iff_lt]
  · intro hne
    simp only [applicableRange, newEventTableMigration, firstLedger]
    split
    · next hlt => omega
    · next hge => omega

/-- Witness for C8's amended theorem at `latestLedger = 10`,
`retentionWindow = 3`. -/
theorem newEventTableMigration_range_witness :
    (applicableRange (newEventTableMigration 3 10)).firstLedgerSeq =
      max 2 (10 - 3) :=
  (newEventTableMigration_range 10 3).2.2 (by decide)

/-- Every visit delivered by `visitAll` comes from its input list. -/
theorem mem_visitAll {f : Visit → Bool} {vs : List Visit} {v : Visit}
    (h : v ∈ (visitAll f vs).1) : v ∈ vs := by
  induction vs with
  | nil => simp [visitAll] at h
  | cons w rest ih =>
    by_cases hw : f w
    · simp only [visitAll, hw, if_pos] at h
      rcases List.mem_cons.mp h with h1 | h2
      · exact h1 ▸ List.mem_cons_self w rest
      · exact List.mem_cons_of_mem w (ih h2)
    · simp only [visitAll, hw] at h
      simp at h
      exact h ▸ List.mem_cons_self w rest

/-- Every visit delivered by the row loop comes from the visits of one of
its rows. -/
theorem mem_scanRows {f : Visit → Bool} {rows : List (Nat × LedgerCloseMeta)}
    {v : Visit} (h : v ∈ (scanRows f rows).1) :
    ∃ p ∈ rows, ∃ vs, rowVisits p.1 p.2 = .ok vs ∧ v ∈ vs := by
  induction rows with
  | nil => simp [scanRows] at h
  | cons p rest ih =>
    rcases hrv : rowVisits p.1 p.2 with e | vs
    · simp [scanRows, hrv] at h
    · simp only [scanRows, hrv] at h
      by_cases hc : (visitAll f vs).2
      · simp only [hc, if_pos] at h
        rcases List.mem_append.mp h with h1 | h2
        · exact ⟨p, List.mem_cons_self p rest, vs, hrv, mem_visitAll h1⟩
        · rcases ih h2 with ⟨q, hq, ws, hws, hv⟩
          exact ⟨q, List.mem_cons_of_mem p hq, ws, hws, hv⟩
      · simp only [hc] at h
        simp at h
        exact ⟨p, List.mem_cons_self p rest, vs, hrv, mem_visitAll h⟩

/-- Every visit of a row carries the row's LCM header sequence as its
cursor's ledger, the row's transaction index as its cursor's tx, and the
LCM's close time. -/
theorem mem_rowVisits {txIndex : Nat} {lcm : LedgerCloseMeta}
    {vs : List Visit} {v : Visit} (h : rowVisits txIndex lcm = .ok vs)
    (hv : v ∈ vs) :
    v.cursor.ledger = lcm.ledgerSeq ∧ v.cursor.tx = txIndex := by
  unfold rowVisits at h
  split at h
  · exact absurd h (by simp)
  · split at h
    · exact absurd h (by simp)
    · have hvs := (Except.ok.injEq _ _).mp h
      rw [← hvs] at hv
      rcases List.mem_map.mp hv with ⟨q, _, hq⟩
      rw [← hq]
      exact ⟨rfl, rfl⟩

/-- Membership through stable insertion. -/
theorem mem_insertSortedRow {e x : EventRow} {l : List EventRow} :
    x ∈ insertSortedRow e l ↔ x = e ∨ x ∈ l := by
  induction l with
  | nil => simp [insertSortedRow]
  | cons y ys ih =>
    by_cases hlt : e.ledgerSequence < y.ledgerSequence
    · simp [insertSortedRow, hlt]
    · simp only [insertSortedRow, hlt, if_neg, ite_false, List.mem_cons, ih]
      tauto

/-- The stable sort keeps exactly the original rows. -/
theorem mem_sortRowsByLedger {x : EventRow} {l : List EventRow} :
    x ∈ sortRowsByLedger l ↔ x ∈ l := by
  induction l with
  | nil => simp [sortRowsByLedger]
  | cons y ys ih =>
    simp [sortRowsByLedger, mem_insertSortedRow, ih]

/-- A successful ledger lookup returns a stored entry with the requested
key. -/
theorem lookupLedger_eq_some {ledgers : List (Nat × LedgerCloseMeta)}
    {seq : Nat} {lcm : LedgerCloseMeta}
    (h : lookupLedger ledgers seq = some lcm) :
    ∃ q ∈ ledgers, q.1 = seq ∧ q.2 = lcm := by
  unfold lookupLedger at h
  rcases hf : ledgers.find? (fun q => q.1 == seq) with _ | q
  · rw [hf] at h; simp at h
  · rw [hf] at h
    have hq : q.2 = lcm := by simpa using h
    have hkey := List.find?_some hf
    exact ⟨q, List.mem_of_find?_eq_some hf, by simpa using hkey, hq⟩

/-- Every selected row of the `GetEvents` query comes from an `events`
row satisfying the WHERE clauses, joined to its stored LCM. -/
theorem mem_selectRows {db : EventDB} {cursorRange : CursorRange}
    {contractIDs : List Nat} {p : Nat × LedgerCloseMeta}
    (h : p ∈ selectRows db cursorRange contractIDs) :
    ∃ e ∈ db.events, rowMatches cursorRange contractIDs e = true ∧
      e.applicationOrder = p.1 ∧
      lookupLedger db.ledgers e.ledgerSequence = some p.2 := by
  unfold selectRows at h
  rcases List.mem_filterMap.mp h with ⟨e, he, hmap⟩
  rcases hl : lookupLedger db.ledgers e.ledgerSequence with _ | lcm
  · rw [hl] at hmap; simp at hmap
  · rw [hl] at hmap
    have hple : (e.applicationOrder, lcm) = p := by simpa using hmap
    have hemem := mem_sortRowsByLedger.mp he
    rcases List.mem_filter.mp hemem with ⟨hee, hm⟩
    exact ⟨e, hee, hm, by rw [← hple], by rw [← hple]; exact hl⟩

/-- C1 counterexample: with the range `[(2,1,1), (3,0,0))`, `GetEvents`
presents the cursor `(2,1,0)`, which is strictly below the start cursor:
the event component of the start cursor is never enforced. -/
theorem getEvents_range_cex :
    ({ ev := sampleEventA, cursor := { ledger := 2, tx := 1, event := 0 },
       ledgerCloseTime := 150, txHash := 8 } : Visit) ∈
      (GetEvents sampleDB
        { start := { ledger := 2, tx := 1, event := 1 },
          stop := { ledger := 3, tx := 0, event := 0 } }
        [] (fun _ => true)).1 ∧
    ¬ cursorLe { ledger := 2, tx := 1, event := 1 }
        { ledger := 2, tx := 1, event := 0 } := by
  decide

/-- C1 amended: on a well-formed database every cursor `GetEvents` passes
to the visitor has ledger at least `start.ledger`, transaction index at
least `start.tx`, and lies strictly below the end cursor in lexicographic
order; the `start` cursor's event component is not enforced, so cursors
with the start's ledger and tx but a smaller event index may also be
presented. -/
theorem getEvents_range_soundness (db : EventDB) (cursorRange : CursorRange)
    (contractIDs : List Nat) (f : Visit → Bool) (v : Visit)
    (hwf : WellFormedDB db)
    (hv : v ∈ (GetEvents db cursorRange contractIDs f).1) :
    cursorRange.start.ledger ≤ v.cursor.ledger ∧
    cursorRange.start.tx ≤ v.cursor.tx ∧
    cursorLt v.cursor cursorRange.stop := by
  rcases mem_scanRows hv with ⟨p, hp, vs, hvs, hvmem⟩
  rcases mem_rowVisits hvs hvmem with ⟨hcl, hct⟩
  rcases mem_selectRows hp with ⟨e, he, hm, hao, hll⟩
  rcases lookupLedger_eq_some hll with ⟨q, hq, hqk, hqv⟩
  have hseq : p.2.ledgerSeq = e.ledgerSequence := by
    rw [← hqv, hwf q hq, hqk]
  simp only [rowMatches, Bool.and_eq_true, decide_eq_true_eq] at hm
  obtain ⟨⟨⟨h1, h2⟩, h3⟩, _⟩ := hm
  refine ⟨?_, ?_, ?_⟩
  · rw [hcl, hseq]; exact h1
  · rw [hct, ← hao]; exact h2
  · exact Or.inl (by rw [hcl, hseq]; exact h3)

/-- Witness for C1's amended theorem at the sample database. -/
theorem getEvents_range_soundness_witness :
    (2 : Nat) ≤ 2 ∧ (1 : Nat) ≤ 1 ∧
    cursorLt { ledger := 2, tx := 1, event := 0 }
      { ledger := 3, tx := 0, event := 0 } :=
  getEvents_range_soundness sampleDB
    { start := { ledger := 2, tx := 1, event := 1 },
      stop := { ledger := 3, tx := 0, event := 0 } }
    [] (fun _ => true)
    { ev := sampleEventA, cursor := { ledger := 2, tx := 1, event := 0 },
      ledgerCloseTime := 150, txHash := 8 }
    (by decide) (by decide)

/-- C2: evaluation at the failing input.  The `events` table holds the two
rows `InsertEvents` writes for one successful transaction with two
diagnostic events, so the un-deduplicated row query returns two rows for
that transaction and the scan replays the transaction's events once per
row: the cursor sequence is `(2,1,0), (2,1,1), (2,1,0), (2,1,1)`, which
repeats cursors and is not strictly increasing, contradicting both the
claim and the function's own doc comment. -/
theorem getEvents_duplicate_cursors :
    ((GetEvents sampleDB
        { start := { ledger := 2, tx := 0, event := 0 },
          stop := { ledger := 3, tx := 0, event := 0 } }
        [] (fun _ => true)).1.map (fun v => v.cursor)) =
      [{ ledger := 2, tx := 1, event := 0 }, { ledger := 2, tx := 1, event := 1 },
       { ledger := 2, tx := 1, event := 0 }, { ledger := 2, tx := 1, event := 1 }] ∧
    strictlyAscending
      [{ ledger := 2, tx := 1, event := 0 }, { ledger := 2, tx := 1, event := 1 },
       { ledger := 2, tx := 1, event := 0 }, { ledger := 2, tx := 1, event := 1 }] =
      false := by
  decide

/-- C3 counterexample: filtering on contract 1 still presents the sample
transaction's second event, whose contract id 2 is not in the filter — the
contract filter selects index rows, but the scan then replays every
diagnostic event of the matched transaction. -/
theorem getEvents_contract_filter_cex :
    ({ ev := sampleEventB, cursor := { ledger := 2, tx := 1, event := 1 },
       ledgerCloseTime := 150, txHash := 8 } : Visit) ∈
      (GetEvents sampleDB
        { start := { ledger := 2, tx := 0, event := 0 },
          stop := { ledger := 3, tx := 0, event := 0 } }
        [1] (fun _ => true)).1 ∧
    sampleEventB.contractId = some 2 ∧
    (2 ∈ ([1] : List Nat)) = False := by
  decide

/-- C3 amended: with a non-empty contract filter, every event passed to
the visitor comes from a transaction with at least one `events`-table row
whose contract id is in the filter (at the visit's ledger sequence and
transaction index); the visited event's own contract id may lie outside
the filter. -/
theorem getEvents_contract_filter_rowlevel (db : EventDB)
    (cursorRange : CursorRange) (contractIDs : List Nat) (f : Visit → Bool)
    (v : Visit) (hne : contractIDs ≠ []) (hwf : WellFormedDB db)
    (hv : v ∈ (GetEvents db cursorRange contractIDs f).1) :
    ∃ e ∈ db.events,
      (∃ c, e.contractId = some c ∧ c ∈ contractIDs) ∧
      e.ledgerSequence = v.cursor.ledger ∧
      e.applicationOrder = v.cursor.tx := by
  rcases mem_scanRows hv with ⟨p, hp, vs, hvs, hvmem⟩
  rcases mem_rowVisits hvs hvmem with ⟨hcl, hct⟩
  rcases mem_selectRows hp with ⟨e, he, hm, hao, hll⟩
  rcases lookupLedger_eq_some hll with ⟨q, hq, hqk, hqv⟩
  have hseq : p.2.ledgerSeq = e.ledgerSequence := by
    rw [← hqv, hwf q hq, hqk]
  simp only [rowMatches, Bool.and_eq_true, Bool.or_eq_true,
    decide_eq_true_eq] at hm
  obtain ⟨_, hcf⟩ := hm
  rcases hcf with hemp | hcid
  · exact absurd (List.isEmpty_iff.mp hemp) hne
  · rcases hec : e.contractId with _ | c
    · rw [hec] at hcid; simp at hcid
    · rw [hec] at hcid
      refine ⟨e, he, ⟨c, hec, ?_⟩, ?_, ?_⟩
      · exact List.elem_iff.mp hcid
      · rw [hcl, hseq]
      · rw [hct, hao]

/-- Witness for C3's amended theorem at the sample database with filter
`[1]`. -/
theorem getEvents_contract_filter_rowlevel_witness :
    ∃ e ∈ sampleDB.events,
      (∃ c, e.contractId = some c ∧ c ∈ ([1] : List Nat)) ∧
      e.ledgerSequence = 2 ∧
      e.applicationOrder = 1 :=
  getEvents_contract_filter_rowlevel sampleDB
    { start := { ledger := 2, tx := 0, event := 0 },
      stop := { ledger := 3, tx := 0, event := 0 } }
    [1] (fun _ => true)
    { ev := sampleEventB, cursor := { ledger := 2, tx := 1, event := 1 },
      ledgerCloseTime := 150, txHash := 8 }
    (by decide) (by decide) (by decide)

/-- A successful hex decode certifies every input character as a hex
digit. -/
theorem valid_of_hexDecodeChars_ok :
    ∀ (l : List Char) (bs : List Nat), hexDecodeChars l = .ok bs →
      ∀ c ∈ l, isHexChar c = true
  | [], _, _, c, hc => absurd hc (by simp)
  | [c0], bs, h, c, hc => by simp [hexDecodeChars] at h
  | c1 :: c2 :: rest, bs, h, c, hc => by
    rcases h1 : hexDigitVal c1 with _ | v1
    · simp only [hexDecodeChars, h1] at h
      exact Except.noConfusion h
    · rcases h2 : hexDigitVal c2 with _ | v2
      · simp only [hexDecodeChars, h1, h2] at h
        exact Except.noConfusion h
      · simp only [hexDecodeChars, h1, h2] at h
        rcases hr : hexDecodeChars rest with e | bs2
        · rw [hr] at h; simp [Except.map] at h
        · rcases List.mem_cons.mp hc with hc1 | hc'
          · subst hc1; simp [isHexChar, h1]
          · rcases List.mem_cons.mp hc' with hc2 | hcr
            · subst hc2; simp [isHexChar, h2]
            · exact valid_of_hexDecodeChars_ok rest bs2 hr c hcr

/-- If any input character is not a hex digit, the decode fails. -/
theorem hexDecodeChars_error_of_invalid (l : List Char)
    (h : ∃ c ∈ l, isHexChar c = false) :
    ∃ e, hexDecodeChars l = .error e := by
  rcases hd : hexDecodeChars l with e | bs
  · exact ⟨e, rfl⟩
  · rcases h with ⟨c, hc, hbad⟩
    have := valid_of_hexDecodeChars_ok l bs hd c hc
    rw [hbad] at this
    exact absurd this (by simp)

/-- An even-length string of hex digits decodes successfully. -/
theorem hexDecodeChars_ok_of_valid :
    ∀ (l : List Char), (∀ c ∈ l, isHexChar c = true) → l.length % 2 = 0 →
      ∃ bs, hexDecodeChars l = .ok bs
  | [], _, _ => ⟨[], rfl⟩
  | [c], _, hlen => by simp at hlen
  | c1 :: c2 :: rest, h, hlen => by
    have h1 : isHexChar c1 = true := h c1 (by simp)
    have h2 : isHexChar c2 = true := h c2 (by simp)
    simp only [isHexChar, Option.isSome_iff_exists] at h1 h2
    rcases h1 with ⟨v1, hv1⟩
    rcases h2 with ⟨v2, hv2⟩
    have hrest : rest.length % 2 = 0 := by
      simp only [List.length_cons] at hlen; omega
    rcases hexDecodeChars_ok_of_valid rest
        (fun c hc => h c (by simp [hc])) hrest with ⟨bs, hbs⟩
    exact ⟨(16 * v1 + v2) :: bs, by
      simp [hexDecodeChars, hv1, hv2, hbs, Except.map]⟩

/-- Decoding inverts encoding of a nibble. -/
theorem hexDigitVal_hexDigitChar (n : Nat) (h : n < 16) :
    hexDigitVal (hexDigitChar n) = some n := by
  interval_cases n <;> decide

/-- Decoding inverts encoding of a byte list. -/
theorem hexDecode_hexEncode :
    ∀ (bs : List Nat), (∀ b ∈ bs, b < 256) →
      hexDecodeChars (hexEncodeBytes bs) = .ok bs
  | [], _ => rfl
  | b :: bs, h => by
    have hb : b < 256 := h b (by simp)
    have e1 := hexDigitVal_hexDigitChar (b / 16 % 16) (Nat.mod_lt _ (by decide))
    have e2 := hexDigitVal_hexDigitChar (b % 16) (Nat.mod_lt _ (by decide))
    have ih := hexDecode_hexEncode bs (fun x hx => h x (by simp [hx]))
    simp only [hexEncodeBytes, hexDecodeChars, e1, e2, ih, Except.map]
    have hbv : 16 * (b / 16 % 16) + b % 16 = b := by omega
    rw [hbv]

/-- Length of a hex encoding. -/
theorem hexEncodeBytes_length (bs : List Nat) :
    (hexEncodeBytes bs).length = 2 * bs.length := by
  induction bs with
  | nil => rfl
  | cons b bs ih => simp [hexEncodeBytes, ih]; omega

/-- The modelled hash has 32 bytes. -/
theorem hashOf_length (p : String) (e : Nat) : (hashOf p e).length = 32 := by
  simp [hashOf]

/-- Every byte of the modelled hash is below 256. -/
theorem hashOf_lt (p : String) (e : Nat) : ∀ b ∈ hashOf p e, b < 256 := by
  intro b hb
  rcases List.mem_map.mp hb with ⟨i, _, hi⟩
  rw [← hi]
  exact Nat.mod_lt _ (by decide)

/-- On a 64-character input whose characters decode to `bs`,
`GetTransaction` proceeds to the lookup step. -/
theorem getTransaction_eq_of_ok (st : TransactionStore) (s : String)
    (bs : List Nat) (h64 : s.length = 64)
    (hbs : hexDecodeChars s.toList = .ok bs) :
    GetTransaction st s = getTransactionResult st bs := by
  unfold GetTransaction
  rw [if_neg (by simp [h64]), hbs]

/-- C5: `GetTransaction` fails with BadInput exactly on malformed hashes:
a non-64-character input fails with `[-32602] unexpected hash length (N)`
for its actual length N, a 64-character input with a non-hex character
fails with `[-32602] incorrect hash: <hex decode detail>`, and every
64-character hex input produces a successful (non-error) response. -/
theorem getTransaction_badInput (st : TransactionStore) (s : String) :
    (s.length ≠ 64 →
      ∃ e, GetTransaction st s = .error e ∧
        renderError e =
          "[-32602] unexpected hash length (" ++ toString s.length ++ ")") ∧
    (s.length = 64 → (∃ c ∈ s.toList, isHexChar c = false) →
      ∃ e d, GetTransaction st s = .error e ∧
        renderError e = "[-32602] incorrect hash: " ++ d) ∧
    (s.length = 64 → (∀ c ∈ s.toList, isHexChar c = true) →
      ∃ r, GetTransaction st s = .ok r) := by
  refine ⟨?_, ?_, ?_⟩
  · intro hne
    refine ⟨{ code := -32602,
              message := "unexpected hash length (" ++ toString s.length ++ ")" },
            ?_, rfl⟩
    simp only [GetTransaction, if_pos hne]
  · intro h64 hbad
    rcases hexDecodeChars_error_of_invalid s.toList hbad with ⟨c, hc⟩
    refine ⟨{ code := -32602, message := "incorrect hash: " ++ hexErrorDetail c },
            hexErrorDetail c, ?_, rfl⟩
    unfold GetTransaction
    rw [if_neg (by simp [h64]), hc]
  · intro h64 hall
    have hlen2 : s.toList.length % 2 = 0 := by
      have hl : s.toList.length = 64 := h64
      rw [hl]
    rcases hexDecodeChars_ok_of_valid s.toList hall hlen2 with ⟨bs, hbs⟩
    rw [getTransaction_eq_of_ok st s bs h64 hbs]
    unfold getTransactionResult
    rcases hlk : lookupTx st bs with _ | q
    · exact ⟨_, rfl⟩
    · exact ⟨_, rfl⟩

/-- Witness for C5: the scenarios from the test — a length-2 hash, a
64-character non-hex hash, and a well-formed hash. -/
theorem getTransaction_badInput_witness :
    (∃ e, GetTransaction emptyStore "ab" = .error e ∧
      renderError e =
        "[-32602] unexpected hash length (" ++ toString ("ab" : String).length ++ ")") ∧
    (∃ e d, GetTransaction emptyStore badHex64 = .error e ∧
      renderError e = "[-32602] incorrect hash: " ++ d) ∧
    (∃ r, GetTransaction emptyStore aHash64 = .ok r) :=
  ⟨(getTransaction_badInput emptyStore "ab").1 (by decide),
   (getTransaction_badInput emptyStore badHex64).2.1 (by decide) (by decide),
   (getTransaction_badInput emptyStore aHash64).2.2 (by decide) (by decide)⟩

/-- C6: for a well-formed 64-hex-character hash absent from the
transaction index, `GetTransaction` answers successfully with status
NOT_FOUND, the latest/oldest ledger and close-time fields taken from the
store bounds, every per-transaction field left at its omitted zero value;
when the store is empty the bound fields are all zero. -/
theorem getTransaction_notFound (st : TransactionStore) (s : String)
    (h1 : s.length = 64) (h2 : ∀ c ∈ s.toList, isHexChar c = true)
    (h3 : ∀ bs, hexDecodeChars s.toList = .ok bs → lookupTx st bs = none) :
    GetTransaction st s =
      .ok { status := .notFound,
            latestLedger := latestSeq st,
            latestLedgerCloseTime := latestCloseTime st,
            oldestLedger := oldestSeq st,
            oldestLedgerCloseTime := oldestCloseTime st } ∧
    (st.lcms = [] →
      latestSeq st = 0 ∧ latestCloseTime st = 0 ∧
      oldestSeq st = 0 ∧ oldestCloseTime st = 0) := by
  constructor
  · have hlen2 : s.toList.length % 2 = 0 := by
      have hl : s.toList.length = 64 := h1
      rw [hl]
    rcases hexDecodeChars_ok_of_valid s.toList h2 hlen2 with ⟨bs, hbs⟩
    rw [getTransaction_eq_of_ok st s bs h1 hbs]
    unfold getTransactionResult
    rw [h3 bs hbs]
  · intro he
    refine ⟨?_, ?_, ?_, ?_⟩ <;>
      simp [latestSeq, latestCloseTime, oldestSeq, oldestCloseTime,
        latestEntry, oldestEntry, he]

/-- Witness for C6: scenario S3, the all-`a` hash against the empty
store. -/
theorem getTransaction_notFound_witness :
    GetTransaction emptyStore aHash64 =
      .ok { status := .notFound,
            latestLedger := latestSeq emptyStore,
            latestLedgerCloseTime := latestCloseTime emptyStore,
            oldestLedger := oldestSeq emptyStore,
            oldestLedgerCloseTime := oldestCloseTime emptyStore } ∧
    (emptyStore.lcms = [] →
      latestSeq emptyStore = 0 ∧ latestCloseTime emptyStore = 0 ∧
      oldestSeq emptyStore = 0 ∧ oldestCloseTime emptyStore = 0) :=
  getTransaction_notFound emptyStore aHash64 (by decide) (by decide)
    (by intro bs _; rfl)

/-- `find?` on a list of key-tagged entries with pairwise-distinct keys
returns exactly the stored entry with the searched key. -/
theorem find?_entry_of_nodup
    {l : List (List Nat × LedgerCloseMeta × Nat × IngestTx)}
    {q : List Nat × LedgerCloseMeta × Nat × IngestTx}
    (hnd : (l.map (fun x => x.1)).Nodup) (hq : q ∈ l) :
    l.find? (fun x => x.1 == q.1) = some q := by
  induction l with
  | nil => simp at hq
  | cons x xs ih =>
    have hnd2 : (x.1 :: xs.map (fun y => y.1)).Nodup := by
      simpa only [List.map_cons] using hnd
    rcases List.nodup_cons.mp hnd2 with ⟨hx, hxs⟩
    rcases List.mem_cons.mp hq with h1 | h2
    · subst h1
      exact List.find?_cons_of_pos _ (by simp)
    · have hne : (x.1 == q.1) = false :=
        beq_eq_false_iff_ne.mpr (fun he => hx (he ▸ List.mem_map.mpr ⟨q, h2, rfl⟩))
      rw [List.find?_cons_of_neg _ (by simp [hne])]
      exact ih hxs h2

/-- C7: for every ingested transaction (under pairwise-distinct
transaction hashes), `GetTransaction` on the hex encoding of its hash
returns SUCCESS exactly when its result is successful and FAILED
otherwise, the ingested ledger sequence and 1-based apply-order index, the
base64 canonical encodings of the ingested envelope, result and post-apply
metadata, the encodings of its diagnostic events (an empty list when there
are none), and the store-bound fields. -/
theorem getTransaction_roundTrip (st : TransactionStore)
    (lcm : LedgerCloseMeta) (i : Nat) (tx : IngestTx)
    (hmem : lcm ∈ st.lcms) (hidx : (i, tx) ∈ enumFrom 1 lcm.txs)
    (hnodup : ((txEntries st).map (fun x => x.1)).Nodup) :
    GetTransaction st (hexEncode (hashOf st.passphrase tx.envelope)) =
      .ok { status := if tx.successful then .success else .failed,
            latestLedger := latestSeq st,
            latestLedgerCloseTime := latestCloseTime st,
            oldestLedger := oldestSeq st,
            oldestLedgerCloseTime := oldestCloseTime st,
            applicationOrder := i,
            feeBump := tx.feeBump,
            envelopeXdr := marshalBase64 tx.envelope,
            resultXdr := marshalBase64 tx.txResult,
            resultMetaXdr := marshalBase64 tx.resultMeta,
            ledger := lcm.ledgerSeq,
            ledgerCloseTime := lcm.closeTime,
            diagnosticEventsXdr := tx.diagEvents.map marshalDiagnosticEvent } := by
  have hlen : (hexEncode (hashOf st.passphrase tx.envelope)).length = 64 := by
    show (hexEncodeBytes (hashOf st.passphrase tx.envelope)).length = 64
    rw [hexEncodeBytes_length, hashOf_length]
  have hdec : hexDecodeChars
      (hexEncode (hashOf st.passphrase tx.envelope)).toList =
      .ok (hashOf st.passphrase tx.envelope) :=
    hexDecode_hexEncode _ (hashOf_lt st.passphrase tx.envelope)
  have hentry : (hashOf st.passphrase tx.envelope, lcm, i, tx) ∈ txEntries st :=
    List.mem_flatMap.mpr ⟨lcm, hmem, List.mem_map.mpr ⟨(i, tx), hidx, rfl⟩⟩
  have hfind := find?_entry_of_nodup hnodup hentry
  have hlk : lookupTx st (hashOf st.passphrase tx.envelope) =
      some (lcm, i, tx) := by
    unfold lookupTx
    rw [hfind]
  rw [getTransaction_eq_of_ok st _ _ hlen hdec]
  unfold getTransactionResult
  rw [hlk]

/-- Witness for C7: one ingested ledger (101) with one successful
transaction. -/
theorem getTransaction_roundTrip_witness :
    GetTransaction wStore (hexEncode (hashOf wStore.passphrase wTx.envelope)) =
      .ok { status := if wTx.successful then .success else .failed,
            latestLedger := latestSeq wStore,
            latestLedgerCloseTime := latestCloseTime wStore,
            oldestLedger := oldestSeq wStore,
            oldestLedgerCloseTime := oldestCloseTime wStore,
            applicationOrder := 1,
            feeBump := wTx.feeBump,
            envelopeXdr := marshalBase64 wTx.envelope,
            resultXdr := marshalBase64 wTx.txResult,
            resultMetaXdr := marshalBase64 wTx.resultMeta,
            ledger := wLcm.ledgerSeq,
            ledgerCloseTime := wLcm.closeTime,
            diagnosticEventsXdr := wTx.diagEvents.map marshalDiagnosticEvent } :=
  getTransaction_roundTrip wStore wLcm 1 wTx (by decide) (by decide) (by decide)
